import Mathlib

/-!
Shallow embedding of the configuration reader of atlas-plot-utils
(atlasplots/config_reader.py): the parsed TOML parameter tree, the
required-field validation pass (check_required), the default-filling pass
(fill_missing), and the top-level read operation.

Python dictionaries produced by toml.loads are modelled as insertion-ordered
association lists with unique keys; printing a diagnostic is modelled by
accumulating a Diag record; sys.exit(1) is modelled by the sysExit outcome;
a Python runtime error (KeyError / TypeError on a value whose shape the code
does not expect) is modelled by Option.none, surfacing as the typeErr
outcome.  The Python-2 unicode conversion branch of read is dead under
Python 3 and is not modelled.
-/

namespace AtlasPlots

/-- A value of the parsed TOML parameter tree, as produced by toml.loads:
strings, integers, floats (modelled as rationals), booleans, the Python None
placed by the default-filling pass, arrays, and tables (dicts). -/
inductive Value where
  | str (s : String)
  | int (n : Int)
  | flt (q : Rat)
  | boolean (b : Bool)
  | none
  | arr (elems : List Value)
  | table (entries : List (String × Value))

/-- A Python dict as an insertion-ordered association list. -/
abbrev Table := List (String × Value)

/-- Python key membership test: k in d. -/
def hasKey : Table → String → Bool
  | [], _ => false
  | p :: rest, k => if p.1 = k then true else hasKey rest k

/-- Python read access d[k]; Option.none models a KeyError. -/
def getKey : Table → String → Option Value
  | [], _ => Option.none
  | p :: rest, k => if p.1 = k then some p.2 else getKey rest k

/-- Python assignment d[k] = v: replaces in place when the key exists,
appends in insertion order when it does not. -/
def setKey : Table → String → Value → Table
  | [], k, v => [(k, v)]
  | p :: rest, k, v => if p.1 = k then (k, v) :: rest else p :: setKey rest k v

/-- One diagnostic printed by print_missing: the missing parameter and its
parent section (parent defaults to "Config file" in the source). -/
structure Diag where
  param : String
  parent : String
deriving DecidableEq

/-- ANSI escape prefixes from console.bcolor used when printing. -/
def bcolorRed : String := "\x1b[91m"

def bcolorBold : String := "\x1b[1m"

def bcolorEnd : String := "\x1b[0m"

def bcolorError : String := bcolorRed ++ "Error" ++ bcolorEnd

/-- The text of the line print_missing writes for a diagnostic. -/
def printMissingLine (d : Diag) : String :=
  bcolorError ++ "  " ++ (bcolorBold ++ d.parent ++ bcolorEnd) ++ " missing "
    ++ (bcolorBold ++ d.param ++ bcolorEnd) ++ " parameter"

/-- Python iteration over the entries stored under an array-of-tables key:
a TOML array of tables yields its member tables.  Any member that is not a
table would make the body's key-membership test raise, modelled as
Option.none. -/
def iterEntries : List Value → Option (List Table)
  | [] => some []
  | Value.table t :: rest => (iterEntries rest).map fun ts => t :: ts
  | _ :: _ => Option.none

/-- Iterating a value that is not an array at all is likewise modelled as
failure (the shape never arises from a TOML array-of-tables section). -/
def iterValue : Value → Option (List Table)
  | Value.arr xs => iterEntries xs
  | _ => Option.none

/-- The body of the for-loop over params.file in check_required: each entry
lacking name, and each lacking tree, adds a diagnostic and sets the exit
flag.  State is (diagnostics printed so far, exit flag). -/
def checkFileEntries : List Table → List Diag × Bool → List Diag × Bool
  | [], s => s
  | t :: rest, s =>
      let s1 := if hasKey t "name" then s else (s.1 ++ [⟨"name", "[[file]]"⟩], true)
      let s2 := if hasKey t "tree" then s1 else (s1.1 ++ [⟨"tree", "[[file]]"⟩], true)
      checkFileEntries rest s2

/-- The body of the for-loop over params.plot in check_required: an entry
lacking name adds a diagnostic; the source does NOT set the exit flag here,
so only the diagnostic list is threaded. -/
def checkPlotEntries : List Table → List Diag → List Diag
  | [], ds => ds
  | t :: rest, ds =>
      checkPlotEntries rest (if hasKey t "name" then ds else ds ++ [⟨"name", "[[plot]]"⟩])

/-- The diagnostics one file entry contributes, in source order. -/
def fileEntryDiags (t : Table) : List Diag :=
  (if hasKey t "name" then [] else [⟨"name", "[[file]]"⟩]) ++
  (if hasKey t "tree" then [] else [⟨"tree", "[[file]]"⟩])

/-- Whether one file entry sets the exit flag. -/
def fileEntryBad (t : Table) : Bool :=
  !(hasKey t "name" && hasKey t "tree")

/-- The diagnostics one plot entry contributes. -/
def plotEntryDiags (t : Table) : List Diag :=
  if hasKey t "name" then [] else [⟨"name", "[[plot]]"⟩]

/-- The file-section half of check_required: an absent file key prints one
diagnostic and sets the exit flag; otherwise every entry is scanned. -/
def checkFileSection (params : Table) : Option (List Diag × Bool) :=
  match getKey params "file" with
  | Option.none => some ([⟨"file", "Config file"⟩], true)
  | some v =>
      match iterValue v with
      | Option.none => Option.none
      | some fs => some (checkFileEntries fs ([], false))

/-- The plot-section half of check_required, continuing from the state left
by the file section. -/
def checkPlotSection (params : Table) (s : List Diag × Bool) : Option (List Diag × Bool) :=
  match getKey params "plot" with
  | Option.none => some (s.1 ++ [⟨"plot", "Config file"⟩], true)
  | some v =>
      match iterValue v with
      | Option.none => Option.none
      | some ps => some (checkPlotEntries ps s.1, s.2)

/-- check_required: scans the file section then the plot section,
accumulating diagnostics and the exit flag; the caller exits when the flag
is set. -/
def check_required (params : Table) : Option (List Diag × Bool) :=
  match checkFileSection params with
  | Option.none => Option.none
  | some s => checkPlotSection params s

/-- The repeated pattern of fill_missing: if k not in file, file[k] = v. -/
def fillStep (k : String) (v : Value) (f : Table) : Table :=
  if hasKey f k then f else setKey f k v

/-- The label default of fill_missing: if label is absent it is set to the
entry's name, whose lookup can raise a KeyError (Option.none). -/
def labelStep (f : Table) : Option Table :=
  if hasKey f "label" then some f
  else (getKey f "name").map fun n => setKey f "label" n

/-- Default-filling of one file entry: label from name, color "#000000",
fill None, scale 1.0, each only when absent. -/
def fillEntry (f : Table) : Option Table :=
  match labelStep f with
  | Option.none => Option.none
  | some f1 =>
      some (fillStep "scale" (Value.flt 1)
             (fillStep "fill" Value.none
               (fillStep "color" (Value.str "#000000") f1)))

/-- The for-loop of fill_missing over the entries of params.file, each
mutated in place; a non-table entry would raise, modelled as failure. -/
def fillTables : List Value → Option (List Value)
  | [] => some []
  | Value.table t :: rest =>
      match fillEntry t with
      | Option.none => Option.none
      | some t2 =>
          match fillTables rest with
          | Option.none => Option.none
          | some rest2 => some (Value.table t2 :: rest2)
  | _ :: _ => Option.none

/-- fill_missing: reads params.file (KeyError if absent), fills each entry,
leaving every other part of the tree untouched. -/
def fill_missing (params : Table) : Option Table :=
  match getKey params "file" with
  | some (Value.arr xs) =>
      match fillTables xs with
      | some xs2 => some (setKey params "file" (Value.arr xs2))
      | Option.none => Option.none
  | some _ => Option.none
  | Option.none => Option.none

/-- Outcome of running validation and default-filling on a parsed tree:
sysExit diags c models printing diags then sys.exit(c); typeErr models a
Python runtime error on an unexpectedly-shaped tree; ok gives the returned
tree and the diagnostics printed on the way (possible because a missing
plot-entry name prints without setting the exit flag). -/
inductive LoadOutcome where
  | sysExit (diags : List Diag) (code : Nat)
  | typeErr
  | ok (params : Table) (diags : List Diag)

/-- True exactly on the sysExit outcome. -/
def LoadOutcome.isExit : LoadOutcome → Bool
  | .sysExit _ _ => true
  | _ => false

/-- The part of read after parsing: check_required (exiting with status 1
if the exit flag was set), then fill_missing, then return the tree. -/
def load (params : Table) : LoadOutcome :=
  match check_required params with
  | Option.none => LoadOutcome.typeErr
  | some (diags, ex) =>
      if ex then LoadOutcome.sysExit diags 1
      else
        match fill_missing params with
        | Option.none => LoadOutcome.typeErr
        | some params2 => LoadOutcome.ok params2 diags

/-- Outcome of read: an unreadable path propagates the I/O failure, text
that does not parse propagates the parser failure, otherwise validation and
default-filling run. -/
inductive ReadOutcome where
  | ioErr
  | parseErr
  | result (r : LoadOutcome)

/-- read, shallowly embedded over its environment: contents is the result
of opening and reading the path (Option.none models an I/O error) and parse
is toml.loads (Option.none models a ParseError). -/
def read (contents : Option String) (parse : String → Option Table) : ReadOutcome :=
  match contents with
  | Option.none => ReadOutcome.ioErr
  | some s =>
      match parse s with
      | Option.none => ReadOutcome.parseErr
      | some params => ReadOutcome.result (load params)

/-- Well-shapedness of the plot value used to state claims away from the
modelled runtime-error outcome: when present it is an array of tables,
the shape the TOML parser produces for an array-of-tables section. -/
def plotSectionIterable (params : Table) : Bool :=
  match getKey params "plot" with
  | Option.none => true
  | some v => (iterValue v).isSome

/-- The plot section is present, an array of tables, and every entry
carries a name key. -/
def plotsOk (params : Table) : Bool :=
  match getKey params "plot" with
  | some v =>
      match iterValue v with
      | some ps => ps.all fun t => hasKey t "name"
      | Option.none => false
  | Option.none => false

/-! ### Concrete configurations used to instantiate the theorems -/

/-- The raw file entries of cfgFull: one entry with every optional key
given explicitly, one with only the required keys. -/
def cfgFullFiles : List Value :=
  [Value.table [("name", Value.str "bkg.root"), ("tree", Value.str "background"),
     ("label", Value.str "Background"), ("color", Value.str "#1F77B4"),
     ("fill", Value.str "#FF7F0E"), ("scale", Value.flt 2)],
   Value.table [("name", Value.str "sig.root"), ("tree", Value.str "signal")]]

/-- A fully valid config whose plot entry also carries an extra key. -/
def cfgFull : Table :=
  [("file", Value.arr cfgFullFiles),
   ("plot", Value.arr [Value.table [("name", Value.str "met"), ("xlabel", Value.str "E_T")]])]

/-- The file entries of cfgFull after default filling. -/
def cfgFullLoadedFiles : List Value :=
  [Value.table [("name", Value.str "bkg.root"), ("tree", Value.str "background"),
     ("label", Value.str "Background"), ("color", Value.str "#1F77B4"),
     ("fill", Value.str "#FF7F0E"), ("scale", Value.flt 2)],
   Value.table [("name", Value.str "sig.root"), ("tree", Value.str "signal"),
     ("label", Value.str "sig.root"), ("color", Value.str "#000000"),
     ("fill", Value.none), ("scale", Value.flt 1)]]

/-- What load returns on cfgFull. -/
def cfgFullLoaded : Table :=
  [("file", Value.arr cfgFullLoadedFiles),
   ("plot", Value.arr [Value.table [("name", Value.str "met"), ("xlabel", Value.str "E_T")]])]

/-- A config whose file section is valid but whose plot entry lacks name. -/
def cfgPlotNoName : Table :=
  [("file", Value.arr [Value.table [("name", Value.str "data.root"), ("tree", Value.str "nominal")]]),
   ("plot", Value.arr [Value.table []])]

/-- What load returns on cfgPlotNoName (it does return). -/
def cfgPlotNoNameLoaded : Table :=
  [("file", Value.arr [Value.table [("name", Value.str "data.root"), ("tree", Value.str "nominal"),
      ("label", Value.str "data.root"), ("color", Value.str "#000000"),
      ("fill", Value.none), ("scale", Value.flt 1)]]),
   ("plot", Value.arr [Value.table []])]

/-- A config whose file key maps to an empty array, with a valid plot. -/
def cfgEmptyFile : Table :=
  [("file", Value.arr []), ("plot", Value.arr [Value.table [("name", Value.str "p")]])]

/-- A config containing only a valid plot section. -/
def cfgOnlyPlot : Table :=
  [("plot", Value.arr [Value.table [("name", Value.str "p")]])]

/-- A config with neither a file nor a plot section. -/
def cfgMissingBoth : Table :=
  [("title", Value.str "t")]

/-- A config whose second file entry lacks tree, with no plot section. -/
def cfgNoTreeNoPlot : Table :=
  [("file", Value.arr [Value.table [("name", Value.str "a.root"), ("tree", Value.str "t")],
                       Value.table [("name", Value.str "b.root")]])]

/-- A config whose second file entry lacks tree, with a valid plot. -/
def cfgNoTree : Table :=
  [("file", Value.arr [Value.table [("name", Value.str "a.root"), ("tree", Value.str "t")],
                       Value.table [("name", Value.str "b.root")]]),
   ("plot", Value.arr [Value.table [("name", Value.str "p")]])]

/-! ### Basic lemmas about the dictionary operations -/

theorem hasKey_eq_isSome (t : Table) (k : String) : hasKey t k = (getKey t k).isSome := by
  induction t with
  | nil => rfl
  | cons p rest ih => by_cases h : p.1 = k <;> simp [hasKey, getKey, h, ih]

theorem getKey_eq_none_of_hasKey_false (t : Table) (k : String) (h : hasKey t k = false) :
    getKey t k = Option.none := by
  rw [hasKey_eq_isSome] at h
  cases hg : getKey t k
  · rfl
  · rw [hg] at h; cases h

theorem getKey_append (t u : Table) (k : String) :
    getKey (t ++ u) k = if hasKey t k then getKey t k else getKey u k := by
  induction t with
  | nil => simp [hasKey, getKey]
  | cons p rest ih => by_cases h : p.1 = k <;> simp [hasKey, getKey, h, ih]

theorem hasKey_append (t u : Table) (k : String) :
    hasKey (t ++ u) k = (hasKey t k || hasKey u k) := by
  induction t with
  | nil => simp [hasKey]
  | cons p rest ih => by_cases h : p.1 = k <;> simp [hasKey, h, ih]

theorem setKey_of_hasKey_false (t : Table) (k : String) (v : Value) (h : hasKey t k = false) :
    setKey t k v = t ++ [(k, v)] := by
  induction t with
  | nil => rfl
  | cons p rest ih =>
      by_cases hp : p.1 = k
      · simp [hasKey, hp] at h
      · simp [hasKey, hp] at h
        simp [setKey, hp, ih h]

theorem getKey_setKey_self (t : Table) (k : String) (v : Value) :
    getKey (setKey t k v) k = some v := by
  induction t with
  | nil => simp [setKey, getKey]
  | cons p rest ih => by_cases h : p.1 = k <;> simp [setKey, getKey, h, ih]

theorem getKey_setKey_other (t : Table) (k k2 : String) (v : Value) (h : k2 ≠ k) :
    getKey (setKey t k v) k2 = getKey t k2 := by
  induction t with
  | nil => simp [setKey, getKey, Ne.symm h]
  | cons p rest ih =>
      by_cases hp : p.1 = k
      · simp [setKey, getKey, hp, Ne.symm h]
      · simp [setKey, getKey, hp, ih]

theorem keys_setKey (t : Table) (k : String) (v : Value) (h : hasKey t k = true) :
    (setKey t k v).map Prod.fst = t.map Prod.fst := by
  induction t with
  | nil => simp [hasKey] at h
  | cons p rest ih =>
      by_cases hp : p.1 = k
      · simp [setKey, hp]
      · simp [hasKey, hp] at h
        simp [setKey, hp, ih h]

/-! ### Lemmas about the default-filling steps -/

theorem fillStep_append (k : String) (v : Value) (f : Table) :
    ∃ e, fillStep k v f = f ++ e ∧ ∀ p ∈ e, p.1 = k := by
  cases h : hasKey f k
  · exact ⟨[(k, v)], by simp [fillStep, h, setKey_of_hasKey_false f k v h], by simp⟩
  · exact ⟨[], by simp [fillStep, h], by simp⟩

theorem getKey_fillStep_self (k : String) (v : Value) (f : Table) :
    getKey (fillStep k v f) k = if hasKey f k then getKey f k else some v := by
  cases h : hasKey f k
  · simp [fillStep, h, setKey_of_hasKey_false f k v h, getKey_append, getKey]
  · simp [fillStep, h]

theorem getKey_fillStep_other (k k2 : String) (v : Value) (f : Table) (h : k2 ≠ k) :
    getKey (fillStep k v f) k2 = getKey f k2 := by
  cases hk : hasKey f k
  · simp [fillStep, hk, getKey_setKey_other f k k2 v h]
  · simp [fillStep, hk]

theorem hasKey_fillStep_self (k : String) (v : Value) (f : Table) :
    hasKey (fillStep k v f) k = true := by
  rw [hasKey_eq_isSome, getKey_fillStep_self]
  cases h : hasKey f k
  · simp
  · rw [hasKey_eq_isSome] at h
    simpa using h

theorem hasKey_fillStep_other (k k2 : String) (v : Value) (f : Table) (h : k2 ≠ k) :
    hasKey (fillStep k v f) k2 = hasKey f k2 := by
  rw [hasKey_eq_isSome, hasKey_eq_isSome, getKey_fillStep_other k k2 v f h]

theorem labelStep_spec (f g : Table) (h : labelStep f = some g) :
    (∃ e, g = f ++ e ∧ ∀ p ∈ e, p.1 = "label") ∧
    getKey g "label" = (if hasKey f "label" then getKey f "label" else getKey f "name") ∧
    hasKey g "label" = true ∧
    (∀ k2, k2 ≠ "label" → getKey g k2 = getKey f k2) := by
  cases hl : hasKey f "label"
  · rw [labelStep, hl] at h
    simp only [Bool.false_eq_true, if_false, Option.map_eq_some'] at h
    obtain ⟨n, hn, hg⟩ := h
    have hgapp : g = f ++ [("label", n)] := by
      rw [← hg, setKey_of_hasKey_false f "label" n hl]
    constructor
    · exact ⟨[("label", n)], hgapp, by simp⟩
    refine ⟨?_, ?_, ?_⟩
    · rw [hgapp, getKey_append, hl, hn]
      simp [getKey]
    · rw [hgapp, hasKey_append, hl]
      simp [hasKey]
    · intro k2 hk2
      rw [hgapp, getKey_append]
      cases hf2 : hasKey f k2
      · rw [getKey_eq_none_of_hasKey_false f k2 hf2]
        simp [getKey, Ne.symm hk2]
      · simp
  · rw [labelStep, hl] at h
    simp only [if_true] at h
    cases h
    exact ⟨⟨[], by simp⟩, by simp [hl], hl, fun _ _ => rfl⟩

theorem labelStep_isSome (f : Table) (h : hasKey f "name" = true) :
    ∃ g, labelStep f = some g := by
  cases hl : hasKey f "label"
  · rw [hasKey_eq_isSome] at h
    obtain ⟨n, hn⟩ := Option.isSome_iff_exists.mp h
    exact ⟨setKey f "label" n, by simp [labelStep, hl, hn]⟩
  · exact ⟨f, by simp [labelStep, hl]⟩

/-- Everything fill_missing does to one file entry: the result is the entry
with only optional keys appended, each of the four optional keys is present
afterwards, an absent optional key got its default (label taking the entry's
name), and a present one kept its value. -/
theorem fillEntry_spec (f g : Table) (h : fillEntry f = some g) :
    (∃ e, g = f ++ e ∧ ∀ p ∈ e, p.1 = "label" ∨ p.1 = "color" ∨ p.1 = "fill" ∨ p.1 = "scale") ∧
    getKey g "label" = (if hasKey f "label" then getKey f "label" else getKey f "name") ∧
    getKey g "color" = (if hasKey f "color" then getKey f "color" else some (Value.str "#000000")) ∧
    getKey g "fill" = (if hasKey f "fill" then getKey f "fill" else some Value.none) ∧
    getKey g "scale" = (if hasKey f "scale" then getKey f "scale" else some (Value.flt 1)) ∧
    hasKey g "label" = true ∧ hasKey g "color" = true ∧
    hasKey g "fill" = true ∧ hasKey g "scale" = true := by
  cases hls : labelStep f with
  | none =>
    simp only [fillEntry, hls] at h
    cases h
  | some f1 =>
    simp only [fillEntry, hls] at h
    cases h
    obtain ⟨⟨e1, he1, hke1⟩, hlab1, hhl1, hoth1⟩ := labelStep_spec f f1 hls
    obtain ⟨e2, he2, hke2⟩ := fillStep_append "color" (Value.str "#000000") f1
    obtain ⟨e3, he3, hke3⟩ := fillStep_append "fill" Value.none (fillStep "color" (Value.str "#000000") f1)
    obtain ⟨e4, he4, hke4⟩ := fillStep_append "scale" (Value.flt 1)
      (fillStep "fill" Value.none (fillStep "color" (Value.str "#000000") f1))
    refine ⟨⟨e1 ++ e2 ++ e3 ++ e4, ?_, ?_⟩, ?_, ?_, ?_, ?_, ?_, ?_, ?_, ?_⟩
    · rw [he4, he3, he2, he1]
      simp [List.append_assoc]
    · intro p hp
      simp only [List.mem_append] at hp
      rcases hp with ((hp | hp) | hp) | hp
      · exact Or.inl (hke1 p hp)
      · exact Or.inr (Or.inl (hke2 p hp))
      · exact Or.inr (Or.inr (Or.inl (hke3 p hp)))
      · exact Or.inr (Or.inr (Or.inr (hke4 p hp)))
    · rw [getKey_fillStep_other "scale" "label" _ _ (by decide),
          getKey_fillStep_other "fill" "label" _ _ (by decide),
          getKey_fillStep_other "color" "label" _ _ (by decide)]
      exact hlab1
    · have hhc : hasKey (fillStep "color" (Value.str "#000000") f1) "color" = true :=
        hasKey_fillStep_self _ _ _
      rw [getKey_fillStep_other "scale" "color" _ _ (by decide),
          getKey_fillStep_other "fill" "color" _ _ (by decide),
          getKey_fillStep_self]
      have hc1 : hasKey f1 "color" = hasKey f "color" := by
        rw [hasKey_eq_isSome, hasKey_eq_isSome, hoth1 "color" (by decide)]
      rw [hoth1 "color" (by decide), hc1]
    · rw [getKey_fillStep_other "scale" "fill" _ _ (by decide), getKey_fillStep_self,
          getKey_fillStep_other "color" "fill" _ _ (by decide)]
      have hf2 : hasKey (fillStep "color" (Value.str "#000000") f1) "fill" = hasKey f "fill" := by
        rw [hasKey_fillStep_other "color" "fill" _ _ (by decide),
            hasKey_eq_isSome, hasKey_eq_isSome, hoth1 "fill" (by decide)]
      rw [hf2, hoth1 "fill" (by decide)]
    · rw [getKey_fillStep_self,
          getKey_fillStep_other "fill" "scale" _ _ (by decide),
          getKey_fillStep_other "color" "scale" _ _ (by decide)]
      have hs3 : hasKey (fillStep "fill" Value.none (fillStep "color" (Value.str "#000000") f1))
          "scale" = hasKey f "scale" := by
        rw [hasKey_fillStep_other "fill" "scale" _ _ (by decide),
            hasKey_fillStep_other "color" "scale" _ _ (by decide),
            hasKey_eq_isSome, hasKey_eq_isSome, hoth1 "scale" (by decide)]
      rw [hs3, hoth1 "scale" (by decide)]
    · rw [hasKey_fillStep_other "scale" "label" _ _ (by decide),
          hasKey_fillStep_other "fill" "label" _ _ (by decide),
          hasKey_fillStep_other "color" "label" _ _ (by decide)]
      exact hhl1
    · rw [hasKey_fillStep_other "scale" "color" _ _ (by decide),
          hasKey_fillStep_other "fill" "color" _ _ (by decide)]
      exact hasKey_fillStep_self _ _ _
    · rw [hasKey_fillStep_other "scale" "fill" _ _ (by decide)]
      exact hasKey_fillStep_self _ _ _
    · exact hasKey_fillStep_self _ _ _

theorem fillEntry_isSome (f : Table) (h : hasKey f "name" = true) :
    ∃ g, fillEntry f = some g := by
  obtain ⟨f1, hf1⟩ := labelStep_isSome f h
  refine ⟨fillStep "scale" (Value.flt 1)
    (fillStep "fill" Value.none (fillStep "color" (Value.str "#000000") f1)), ?_⟩
  simp [fillEntry, hf1]

/-! ### Lemmas about iteration and entry-wise filling -/

theorem iterEntries_map (ts : List Table) :
    iterEntries (ts.map Value.table) = some ts := by
  induction ts with
  | nil => rfl
  | cons t rest ih => simp [iterEntries, ih]

theorem iterEntries_eq (xs : List Value) (ts : List Table) (h : iterEntries xs = some ts) :
    xs = ts.map Value.table := by
  induction xs generalizing ts with
  | nil =>
      simp only [iterEntries, Option.some.injEq] at h
      subst h
      rfl
  | cons x rest ih =>
      cases x with
      | table t =>
          simp only [iterEntries, Option.map_eq_some'] at h
          obtain ⟨ts2, hts2, hcons⟩ := h
          subst hcons
          simp [ih ts2 hts2]
      | str s => simp [iterEntries] at h
      | int n => simp [iterEntries] at h
      | flt q => simp [iterEntries] at h
      | boolean b => simp [iterEntries] at h
      | none => simp [iterEntries] at h
      | arr xs2 => simp [iterEntries] at h

theorem iterValue_eq (v : Value) (ts : List Table) (h : iterValue v = some ts) :
    v = Value.arr (ts.map Value.table) := by
  cases v with
  | arr xs =>
      simp only [iterValue] at h
      rw [iterEntries_eq xs ts h]
  | str s => simp [iterValue] at h
  | int n => simp [iterValue] at h
  | flt q => simp [iterValue] at h
  | boolean b => simp [iterValue] at h
  | none => simp [iterValue] at h
  | table t => simp [iterValue] at h

theorem fillTables_map (ts : List Table) (h : ∀ t ∈ ts, ∃ g, fillEntry t = some g) :
    ∃ gs : List Table, fillTables (ts.map Value.table) = some (gs.map Value.table) ∧
      gs.length = ts.length ∧
      ∀ i (hi : i < ts.length) (hi2 : i < gs.length),
        fillEntry (ts.get ⟨i, hi⟩) = some (gs.get ⟨i, hi2⟩) := by
  induction ts with
  | nil =>
      refine ⟨[], rfl, rfl, ?_⟩
      intro i hi
      exact absurd hi (by simp)
  | cons t rest ih =>
      obtain ⟨g, hg⟩ := h t (by simp)
      obtain ⟨gs, hgs, hlen, hpt⟩ := ih (fun t2 ht2 => h t2 (by simp [ht2]))
      refine ⟨g :: gs, ?_, by simp [hlen], ?_⟩
      · simp [fillTables, hg, hgs]
      · intro i hi hi2
        cases i with
        | zero => simpa using hg
        | succ j => simpa using hpt j (by simpa using hi) (by simpa using hi2)

/-! ### Characterization of the validation pass -/

theorem checkFileEntries_eq (ts : List Table) (d : List Diag) (e : Bool) :
    checkFileEntries ts (d, e) = (d ++ ts.flatMap fileEntryDiags, e || ts.any fileEntryBad) := by
  induction ts generalizing d e with
  | nil => simp [checkFileEntries]
  | cons t rest ih =>
      cases hn : hasKey t "name" <;> cases ht : hasKey t "tree" <;>
        simp [checkFileEntries, hn, ht, ih, fileEntryDiags, fileEntryBad, List.append_assoc]

theorem checkPlotEntries_eq (ts : List Table) (d : List Diag) :
    checkPlotEntries ts d = d ++ ts.flatMap plotEntryDiags := by
  induction ts generalizing d with
  | nil => simp [checkPlotEntries]
  | cons t rest ih =>
      cases hn : hasKey t "name" <;>
        simp [checkPlotEntries, hn, ih, plotEntryDiags, List.append_assoc]

theorem check_required_file_absent (params : Table) (h : getKey params "file" = Option.none) :
    check_required params = checkPlotSection params ([⟨"file", "Config file"⟩], true) := by
  simp only [check_required, checkFileSection, h]

theorem check_required_file_present (params : Table) (v : Value) (ts : List Table)
    (hv : getKey params "file" = some v) (hts : iterValue v = some ts) :
    check_required params =
      checkPlotSection params (ts.flatMap fileEntryDiags, ts.any fileEntryBad) := by
  simp [check_required, checkFileSection, hv, hts, checkFileEntries_eq]

theorem checkPlotSection_plot_absent (params : Table) (s : List Diag × Bool)
    (h : getKey params "plot" = Option.none) :
    checkPlotSection params s = some (s.1 ++ [⟨"plot", "Config file"⟩], true) := by
  simp only [checkPlotSection, h]

theorem checkPlotSection_plot_present (params : Table) (s : List Diag × Bool) (v : Value)
    (ps : List Table) (hv : getKey params "plot" = some v) (hps : iterValue v = some ps) :
    checkPlotSection params s = some (s.1 ++ ps.flatMap plotEntryDiags, s.2) := by
  simp [checkPlotSection, hv, hps, checkPlotEntries_eq]

/-- Whatever the plot section does, it only appends diagnostics and can
only raise the exit flag, never clear it. -/
theorem checkPlotSection_some_inv (params : Table) (s : List Diag × Bool) (ds : List Diag)
    (ex : Bool) (h : checkPlotSection params s = some (ds, ex)) :
    (s.2 = true → ex = true) ∧ ∃ d2, ds = s.1 ++ d2 := by
  cases hp : getKey params "plot" with
  | none =>
      simp only [checkPlotSection, hp] at h
      cases h
      exact ⟨fun _ => rfl, ⟨[⟨"plot", "Config file"⟩], rfl⟩⟩
  | some v =>
      simp only [checkPlotSection, hp] at h
      cases hi : iterValue v with
      | none =>
          simp only [hi] at h
          cases h
      | some ps =>
          simp only [hi] at h
          cases h
          exact ⟨fun hs => hs, ⟨ps.flatMap plotEntryDiags, checkPlotEntries_eq ps s.1⟩⟩

/-- If the validation pass returns without setting the exit flag, the file
key is present, holds an array of tables, and every entry has both name
and tree. -/
theorem check_required_pass_inv (params : Table) (ds : List Diag)
    (h : check_required params = some (ds, false)) :
    ∃ ts : List Table, getKey params "file" = some (Value.arr (ts.map Value.table)) ∧
      ∀ t ∈ ts, hasKey t "name" = true ∧ hasKey t "tree" = true := by
  cases hv : getKey params "file" with
  | none =>
      rw [check_required_file_absent params hv] at h
      obtain ⟨himp, -⟩ := checkPlotSection_some_inv params _ ds false h
      cases himp rfl
  | some v =>
      cases hi : iterValue v with
      | none =>
          simp only [check_required, checkFileSection, hv, hi] at h
          cases h
      | some ts =>
          rw [check_required_file_present params v ts hv hi] at h
          obtain ⟨himp, -⟩ := checkPlotSection_some_inv params _ ds false h
          refine ⟨ts, by rw [iterValue_eq v ts hi], ?_⟩
          have hany : ts.any fileEntryBad = false := by
            cases hh : ts.any fileEntryBad
            · rfl
            · cases himp hh
          have hnb : ¬(ts.any fileEntryBad = true) := by
            rw [hany]
            simp
          intro t ht
          cases hfb : fileEntryBad t with
          | false => simpa [fileEntryBad] using hfb
          | true => exact absurd (List.any_eq_true.mpr ⟨t, ht, hfb⟩) hnb

/-! ### Composition of check, fill and exit in load -/

theorem load_of_check_exit (params : Table) (ds : List Diag)
    (h : check_required params = some (ds, true)) :
    load params = LoadOutcome.sysExit ds 1 := by
  simp [load, h]

theorem load_of_check_pass (params p2 : Table) (ds : List Diag)
    (hc : check_required params = some (ds, false)) (hf : fill_missing params = some p2) :
    load params = LoadOutcome.ok p2 ds := by
  simp [load, hc, hf]

theorem load_ok_inv (params params2 : Table) (diags : List Diag)
    (h : load params = LoadOutcome.ok params2 diags) :
    check_required params = some (diags, false) ∧ fill_missing params = some params2 := by
  cases hc : check_required params with
  | none =>
      simp only [load, hc] at h
      cases h
  | some s =>
      obtain ⟨ds, ex⟩ := s
      simp only [load, hc] at h
      cases ex with
      | true =>
          simp only [if_true] at h
          cases h
      | false =>
          simp only [Bool.false_eq_true, if_false] at h
          cases hf : fill_missing params with
          | none =>
              simp only [hf] at h
              cases h
          | some q =>
              simp only [hf] at h
              cases h
              exact ⟨rfl, rfl⟩

theorem flatMap_nil {α β : Type} (l : List α) (f : α → List β) (h : ∀ a ∈ l, f a = []) :
    l.flatMap f = [] := by
  induction l with
  | nil => rfl
  | cons a rest ih =>
      simp only [List.flatMap_cons, h a (by simp)]
      simpa using ih fun b hb => h b (by simp [hb])

/-- A valid plot section contributes no diagnostics and leaves the state
of the validation scan unchanged. -/
theorem checkPlotSection_of_plotsOk (params : Table) (s : List Diag × Bool)
    (h : plotsOk params = true) : checkPlotSection params s = some (s.1, s.2) := by
  cases hp : getKey params "plot" with
  | none =>
      simp only [plotsOk, hp] at h
      cases h
  | some v =>
      simp only [plotsOk, hp] at h
      cases hi : iterValue v with
      | none =>
          simp only [hi] at h
          cases h
      | some ps =>
          simp only [hi] at h
          rw [checkPlotSection_plot_present params s v ps hp hi]
          have hnil : ps.flatMap plotEntryDiags = [] := by
            refine flatMap_nil ps plotEntryDiags fun t ht => ?_
            have := List.all_eq_true.mp h t ht
            simp [plotEntryDiags, this]
          rw [hnil]
          simp

/-- Structure of any run of load that returns: the file key held an array
of validated tables, and the result replaces it with their entry-wise
default-filled versions. -/
theorem load_ok_shape (params params2 : Table) (diags : List Diag)
    (h : load params = LoadOutcome.ok params2 diags) :
    ∃ ts gs : List Table,
      getKey params "file" = some (Value.arr (ts.map Value.table)) ∧
      params2 = setKey params "file" (Value.arr (gs.map Value.table)) ∧
      gs.length = ts.length ∧
      (∀ i (hi : i < ts.length) (hi2 : i < gs.length),
        fillEntry (ts.get ⟨i, hi⟩) = some (gs.get ⟨i, hi2⟩)) ∧
      ∀ t ∈ ts, hasKey t "name" = true ∧ hasKey t "tree" = true := by
  obtain ⟨hc, hf⟩ := load_ok_inv params params2 diags h
  obtain ⟨ts, hv, hgood⟩ := check_required_pass_inv params diags hc
  obtain ⟨gs, hgs, hlen, hpt⟩ := fillTables_map ts fun t ht => fillEntry_isSome t (hgood t ht).1
  refine ⟨ts, gs, hv, ?_, hlen, hpt, hgood⟩
  have heq : fill_missing params = some (setKey params "file" (Value.arr (gs.map Value.table))) := by
    simp [fill_missing, hv, hgs]
  rw [heq] at hf
  injection hf with hf2
  exact hf2.symm

/-! ### The claims -/

/-- C1: for every file entry of a config on which load returns, each absent
optional key was set to its default -- label to the entry's name, color to
"#000000", fill to None, scale to 1.0 -- and every explicitly given label,
color, fill and scale value is returned unchanged. -/
theorem load_fills_defaults_and_preserves_explicit
    (params params2 : Table) (diags : List Diag) (fs : List Value)
    (hload : load params = LoadOutcome.ok params2 diags)
    (hfile : getKey params "file" = some (Value.arr fs)) :
    ∃ fs2 : List Value, getKey params2 "file" = some (Value.arr fs2) ∧
      fs2.length = fs.length ∧
      ∀ i (hi : i < fs.length) (hi2 : i < fs2.length), ∃ t g : Table,
        fs.get ⟨i, hi⟩ = Value.table t ∧ fs2.get ⟨i, hi2⟩ = Value.table g ∧
        getKey g "label" = (if hasKey t "label" then getKey t "label" else getKey t "name") ∧
        getKey g "color" = (if hasKey t "color" then getKey t "color" else some (Value.str "#000000")) ∧
        getKey g "fill" = (if hasKey t "fill" then getKey t "fill" else some Value.none) ∧
        getKey g "scale" = (if hasKey t "scale" then getKey t "scale" else some (Value.flt 1)) := by
  obtain ⟨ts, gs, hv, hp2, hlen, hpt, hgood⟩ := load_ok_shape params params2 diags hload
  rw [hfile] at hv
  injection hv with hv2
  injection hv2 with hv3
  subst hv3
  refine ⟨gs.map Value.table, by rw [hp2, getKey_setKey_self], by simp [hlen], ?_⟩
  intro i hi hi2
  have hi' : i < ts.length := by simpa using hi
  have hi2' : i < gs.length := by simpa using hi2
  obtain ⟨-, hl, hcol, hfl, hsc, -, -, -, -⟩ := fillEntry_spec _ _ (hpt i hi' hi2')
  exact ⟨ts.get ⟨i, hi'⟩, gs.get ⟨i, hi2'⟩, by simp, by simp, hl, hcol, hfl, hsc⟩

theorem load_fills_defaults_and_preserves_explicit_witness :
    load cfgFull = LoadOutcome.ok cfgFullLoaded [] ∧
    getKey cfgFull "file" = some (Value.arr cfgFullFiles) ∧
    ∃ fs2 : List Value, getKey cfgFullLoaded "file" = some (Value.arr fs2) ∧
      fs2.length = cfgFullFiles.length ∧
      ∀ i (hi : i < cfgFullFiles.length) (hi2 : i < fs2.length), ∃ t g : Table,
        cfgFullFiles.get ⟨i, hi⟩ = Value.table t ∧ fs2.get ⟨i, hi2⟩ = Value.table g ∧
        getKey g "label" = (if hasKey t "label" then getKey t "label" else getKey t "name") ∧
        getKey g "color" = (if hasKey t "color" then getKey t "color" else some (Value.str "#000000")) ∧
        getKey g "fill" = (if hasKey t "fill" then getKey t "fill" else some Value.none) ∧
        getKey g "scale" = (if hasKey t "scale" then getKey t "scale" else some (Value.flt 1)) :=
  ⟨rfl, rfl,
   load_fills_defaults_and_preserves_explicit cfgFull cfgFullLoaded [] cfgFullFiles rfl rfl⟩

/-- C2: evidence against the claim that a plot entry lacking name makes the
process exit with status 1.  On a config whose only defect is a plot entry
without name, load prints the diagnostic but returns normally: the source
omits setting the exit flag in the plot loop, contradicting the docstring
of check_required (exit if any required parameter is missing). -/
theorem load_plot_missing_name_returns_without_exit :
    load cfgPlotNoName = LoadOutcome.ok cfgPlotNoNameLoaded [⟨"name", "[[plot]]"⟩] ∧
    (load cfgPlotNoName).isExit = false :=
  ⟨rfl, rfl⟩

/-- C3 counterexample: a config whose file key maps to an empty sequence is
not rejected -- load returns it unchanged with no diagnostic and never
exits, refuting the claim that an empty file sequence terminates the
process with a non-zero status. -/
theorem load_empty_file_array_not_rejected :
    load cfgEmptyFile = LoadOutcome.ok cfgEmptyFile [] ∧
    (load cfgEmptyFile).isExit = false :=
  ⟨rfl, rfl⟩

/-- C3 amended: validation checks only that the file key exists.  A config
with the file key absent exits with status 1 after a diagnostic mentioning
file, while a config whose file key maps to an empty sequence passes
validation and load returns with no diagnostic. -/
theorem load_checks_file_key_presence_only
    (p1 p2 : Table)
    (h1 : getKey p1 "file" = Option.none)
    (h2 : plotSectionIterable p1 = true)
    (h3 : getKey p2 "file" = some (Value.arr []))
    (h4 : plotsOk p2 = true) :
    (∃ diags, load p1 = LoadOutcome.sysExit diags 1 ∧ Diag.mk "file" "Config file" ∈ diags) ∧
    ∃ q, load p2 = LoadOutcome.ok q [] := by
  constructor
  · have hcr : ∃ d2, check_required p1 = some ([Diag.mk "file" "Config file"] ++ d2, true) := by
      rw [check_required_file_absent p1 h1]
      cases hp : getKey p1 "plot" with
      | none =>
          exact ⟨[⟨"plot", "Config file"⟩], by rw [checkPlotSection_plot_absent p1 _ hp]⟩
      | some v =>
          simp only [plotSectionIterable, hp] at h2
          obtain ⟨ps, hps⟩ := Option.isSome_iff_exists.mp h2
          exact ⟨ps.flatMap plotEntryDiags, by rw [checkPlotSection_plot_present p1 _ v ps hp hps]⟩
    obtain ⟨d2, hcr⟩ := hcr
    exact ⟨_, load_of_check_exit p1 _ hcr, by simp⟩
  · have hv : getKey p2 "file" = some (Value.arr (([] : List Table).map Value.table)) := by
      simpa using h3
    have hcr : check_required p2 = some ([], false) := by
      rw [check_required_file_present p2 _ [] hv rfl, checkPlotSection_of_plotsOk p2 _ h4]
      rfl
    have hfill : fill_missing p2 = some (setKey p2 "file" (Value.arr [])) := by
      simp [fill_missing, h3, fillTables]
    exact ⟨_, load_of_check_pass p2 _ [] hcr hfill⟩

theorem load_checks_file_key_presence_only_witness :
    getKey cfgOnlyPlot "file" = Option.none ∧
    plotSectionIterable cfgOnlyPlot = true ∧
    getKey cfgEmptyFile "file" = some (Value.arr []) ∧
    plotsOk cfgEmptyFile = true ∧
    (∃ diags, load cfgOnlyPlot = LoadOutcome.sysExit diags 1 ∧
      Diag.mk "file" "Config file" ∈ diags) ∧
    ∃ q, load cfgEmptyFile = LoadOutcome.ok q [] := by
  refine ⟨rfl, rfl, rfl, rfl, ?_, ?_⟩
  · exact (load_checks_file_key_presence_only cfgOnlyPlot cfgEmptyFile rfl rfl rfl rfl).1
  · exact (load_checks_file_key_presence_only cfgOnlyPlot cfgEmptyFile rfl rfl rfl rfl).2

/-- C4: validation accumulates problems instead of failing on the first.
A config missing both sections reports both diagnostics, in order, before
exiting with status 1; and with the file section present, every file entry
is scanned and every missing required field of every entry is reported
before the exit. -/
theorem check_reports_all_missing_before_exit
    (p1 p2 : Table) (v : Value) (ts : List Table)
    (h1f : getKey p1 "file" = Option.none) (h1p : getKey p1 "plot" = Option.none)
    (h2f : getKey p2 "file" = some v) (h2i : iterValue v = some ts)
    (h2p : getKey p2 "plot" = Option.none) :
    load p1 = LoadOutcome.sysExit [⟨"file", "Config file"⟩, ⟨"plot", "Config file"⟩] 1 ∧
    load p2 = LoadOutcome.sysExit (ts.flatMap fileEntryDiags ++ [⟨"plot", "Config file"⟩]) 1 := by
  constructor
  · apply load_of_check_exit
    rw [check_required_file_absent p1 h1f, checkPlotSection_plot_absent p1 _ h1p]
    rfl
  · apply load_of_check_exit
    rw [check_required_file_present p2 v ts h2f h2i, checkPlotSection_plot_absent p2 _ h2p]

theorem check_reports_all_missing_before_exit_witness :
    getKey cfgMissingBoth "file" = Option.none ∧
    getKey cfgMissingBoth "plot" = Option.none ∧
    getKey cfgNoTreeNoPlot "file" = some (Value.arr
      [Value.table [("name", Value.str "a.root"), ("tree", Value.str "t")],
       Value.table [("name", Value.str "b.root")]]) ∧
    getKey cfgNoTreeNoPlot "plot" = Option.none ∧
    load cfgMissingBoth =
      LoadOutcome.sysExit [⟨"file", "Config file"⟩, ⟨"plot", "Config file"⟩] 1 ∧
    load cfgNoTreeNoPlot =
      LoadOutcome.sysExit [⟨"tree", "[[file]]"⟩, ⟨"plot", "Config file"⟩] 1 := by
  have h := check_reports_all_missing_before_exit cfgMissingBoth cfgNoTreeNoPlot
    (Value.arr [Value.table [("name", Value.str "a.root"), ("tree", Value.str "t")],
                Value.table [("name", Value.str "b.root")]])
    [[("name", Value.str "a.root"), ("tree", Value.str "t")], [("name", Value.str "b.root")]]
    rfl rfl rfl rfl rfl
  exact ⟨rfl, rfl, rfl, rfl, h.1, h.2⟩

/-- C5: a file entry that has name but lacks tree is reported as missing
tree and the whole load aborts with exit status 1, however well-formed the
other file entries are (the entry is quantified over an arbitrary
position in an arbitrary entry list). -/
theorem load_missing_tree_aborts
    (params : Table) (v : Value) (ts : List Table) (t : Table)
    (hv : getKey params "file" = some v) (hi : iterValue v = some ts)
    (ht : t ∈ ts) (_hname : hasKey t "name" = true) (htree : hasKey t "tree" = false)
    (hps : plotSectionIterable params = true) :
    ∃ diags, load params = LoadOutcome.sysExit diags 1 ∧ Diag.mk "tree" "[[file]]" ∈ diags := by
  have hbad : ts.any fileEntryBad = true :=
    List.any_eq_true.mpr ⟨t, ht, by simp [fileEntryBad, htree]⟩
  have hmem : Diag.mk "tree" "[[file]]" ∈ ts.flatMap fileEntryDiags :=
    List.mem_flatMap.mpr ⟨t, ht, by simp [fileEntryDiags, htree]⟩
  have hcr := check_required_file_present params v ts hv hi
  rw [hbad] at hcr
  cases hp : getKey params "plot" with
  | none =>
      rw [checkPlotSection_plot_absent params _ hp] at hcr
      exact ⟨_, load_of_check_exit params _ hcr, by simp [hmem]⟩
  | some w =>
      simp only [plotSectionIterable, hp] at hps
      obtain ⟨ps, hpsome⟩ := Option.isSome_iff_exists.mp hps
      rw [checkPlotSection_plot_present params _ w ps hp hpsome] at hcr
      exact ⟨_, load_of_check_exit params _ hcr, by simp [hmem]⟩

theorem load_missing_tree_aborts_witness :
    getKey cfgNoTree "file" = some (Value.arr
      [Value.table [("name", Value.str "a.root"), ("tree", Value.str "t")],
       Value.table [("name", Value.str "b.root")]]) ∧
    hasKey [("name", Value.str "b.root")] "name" = true ∧
    hasKey [("name", Value.str "b.root")] "tree" = false ∧
    plotSectionIterable cfgNoTree = true ∧
    ∃ diags, load cfgNoTree = LoadOutcome.sysExit diags 1 ∧
      Diag.mk "tree" "[[file]]" ∈ diags :=
  ⟨rfl, rfl, rfl, rfl,
   load_missing_tree_aborts cfgNoTree
     (Value.arr [Value.table [("name", Value.str "a.root"), ("tree", Value.str "t")],
                 Value.table [("name", Value.str "b.root")]])
     [[("name", Value.str "a.root"), ("tree", Value.str "t")], [("name", Value.str "b.root")]]
     [("name", Value.str "b.root")]
     rfl rfl (List.mem_cons_of_mem _ (List.mem_cons_self _ _)) rfl rfl rfl⟩

/-- C6: invariant of the returned structure -- whenever load returns, every
entry of the returned file sequence carries all four optional keys, label,
color, fill and scale, whatever subset the input provided. -/
theorem load_ok_entries_have_all_optional_keys
    (params params2 : Table) (diags : List Diag)
    (hload : load params = LoadOutcome.ok params2 diags) :
    ∃ fs2 : List Value, getKey params2 "file" = some (Value.arr fs2) ∧
      ∀ e ∈ fs2, ∃ g : Table, e = Value.table g ∧
        hasKey g "label" = true ∧ hasKey g "color" = true ∧
        hasKey g "fill" = true ∧ hasKey g "scale" = true := by
  obtain ⟨ts, gs, hv, hp2, hlen, hpt, hgood⟩ := load_ok_shape params params2 diags hload
  refine ⟨gs.map Value.table, by rw [hp2, getKey_setKey_self], ?_⟩
  intro e he
  obtain ⟨g, hg, rfl⟩ := List.mem_map.mp he
  obtain ⟨⟨i, hilt⟩, hn⟩ := List.mem_iff_get.mp hg
  have hits : i < ts.length := by rw [← hlen]; exact hilt
  obtain ⟨-, -, -, -, -, h1, h2, h3, h4⟩ := fillEntry_spec _ _ (hpt i hits hilt)
  rw [hn] at h1 h2 h3 h4
  exact ⟨g, rfl, h1, h2, h3, h4⟩

theorem load_ok_entries_have_all_optional_keys_witness :
    load cfgFull = LoadOutcome.ok cfgFullLoaded [] ∧
    ∃ fs2 : List Value, getKey cfgFullLoaded "file" = some (Value.arr fs2) ∧
      ∀ e ∈ fs2, ∃ g : Table, e = Value.table g ∧
        hasKey g "label" = true ∧ hasKey g "color" = true ∧
        hasKey g "fill" = true ∧ hasKey g "scale" = true :=
  ⟨rfl, load_ok_entries_have_all_optional_keys cfgFull cfgFullLoaded [] rfl⟩

/-- C7: a config whose file entries are valid and whose plot entries each
carry name validates whatever extra keys the plot entries hold, load
returns with no diagnostics, and the returned plot value is the input plot
value, identical and unmodified (plot entries receive no defaults). -/
theorem load_valid_returns_plot_untouched
    (params : Table) (ts : List Table)
    (hv : getKey params "file" = some (Value.arr (ts.map Value.table)))
    (hentries : ts.all (fun t => hasKey t "name" && hasKey t "tree") = true)
    (hplots : plotsOk params = true) :
    ∃ p2, load params = LoadOutcome.ok p2 [] ∧ getKey p2 "plot" = getKey params "plot" := by
  have hiter : iterValue (Value.arr (ts.map Value.table)) = some ts := by
    simp [iterValue, iterEntries_map]
  have hgood : ∀ t ∈ ts, hasKey t "name" = true ∧ hasKey t "tree" = true := by
    intro t ht
    have := List.all_eq_true.mp hentries t ht
    simpa using this
  have hcr : check_required params = some ([], false) := by
    rw [check_required_file_present params _ ts hv hiter,
        checkPlotSection_of_plotsOk params _ hplots]
    have hnil : ts.flatMap fileEntryDiags = [] := by
      refine flatMap_nil ts fileEntryDiags fun t ht => ?_
      simp [fileEntryDiags, (hgood t ht).1, (hgood t ht).2]
    have hany : ts.any fileEntryBad = false := by
      cases hh : ts.any fileEntryBad
      · rfl
      · obtain ⟨t, ht, hb⟩ := List.any_eq_true.mp hh
        simp [fileEntryBad, (hgood t ht).1, (hgood t ht).2] at hb
    rw [hnil, hany]
  obtain ⟨gs, hgs, -, -⟩ := fillTables_map ts fun t ht => fillEntry_isSome t (hgood t ht).1
  have hfill : fill_missing params = some (setKey params "file" (Value.arr (gs.map Value.table))) := by
    simp [fill_missing, hv, hgs]
  refine ⟨_, load_of_check_pass params _ [] hcr hfill, ?_⟩
  exact getKey_setKey_other params "file" "plot" _ (by decide)

theorem load_valid_returns_plot_untouched_witness :
    getKey cfgFull "file" = some (Value.arr
      ([[("name", Value.str "bkg.root"), ("tree", Value.str "background"),
         ("label", Value.str "Background"), ("color", Value.str "#1F77B4"),
         ("fill", Value.str "#FF7F0E"), ("scale", Value.flt 2)],
        [("name", Value.str "sig.root"), ("tree", Value.str "signal")]].map Value.table)) ∧
    plotsOk cfgFull = true ∧
    ∃ p2, load cfgFull = LoadOutcome.ok p2 [] ∧ getKey p2 "plot" = getKey cfgFull "plot" :=
  ⟨rfl, rfl,
   load_valid_returns_plot_untouched cfgFull
     [[("name", Value.str "bkg.root"), ("tree", Value.str "background"),
       ("label", Value.str "Background"), ("color", Value.str "#1F77B4"),
       ("fill", Value.str "#FF7F0E"), ("scale", Value.flt 2)],
      [("name", Value.str "sig.root"), ("tree", Value.str "signal")]]
     rfl rfl rfl⟩

/-- C8: read propagates parse and I/O failures immediately -- an unreadable
path yields the I/O failure and unparsable text yields the parser failure,
in both cases with no missing-field diagnostics, no defaults applied and
the status-1 validation exit never reached (the outcome carries no
diagnostics and no tree). -/
theorem read_propagates_parse_and_io_failures
    (contents : Option String) (parse : String → Option Table) (s : String) :
    read Option.none parse = ReadOutcome.ioErr ∧
    (contents = some s → parse s = Option.none →
      read contents parse = ReadOutcome.parseErr) := by
  refine ⟨rfl, ?_⟩
  intro h1 h2
  subst h1
  simp [read, h2]

theorem read_propagates_parse_and_io_failures_witness :
    read Option.none (fun _ => Option.none) = ReadOutcome.ioErr ∧
    read (some "not toml") (fun _ => Option.none) = ReadOutcome.parseErr :=
  ⟨(read_propagates_parse_and_io_failures (some "not toml") (fun _ => Option.none) "not toml").1,
   (read_propagates_parse_and_io_failures (some "not toml") (fun _ => Option.none) "not toml").2
     rfl rfl⟩

/-- C9: implicit safety of the default-fill pass -- if validation returned
with the exit flag clear, every file entry has a name key, so the lookup of
the entry's name performed when defaulting label cannot raise: fill_missing
always succeeds (its failure branches, including the KeyError branch of the
name lookup, are unreachable after successful validation). -/
theorem fill_missing_safe_after_validation
    (params : Table) (diags : List Diag)
    (h : check_required params = some (diags, false)) :
    ∃ p2, fill_missing params = some p2 := by
  obtain ⟨ts, hv, hgood⟩ := check_required_pass_inv params diags h
  obtain ⟨gs, hgs, -, -⟩ := fillTables_map ts fun t ht => fillEntry_isSome t (hgood t ht).1
  exact ⟨setKey params "file" (Value.arr (gs.map Value.table)),
         by simp [fill_missing, hv, hgs]⟩

theorem fill_missing_safe_after_validation_witness :
    check_required cfgFull = some ([], false) ∧
    ∃ p2, fill_missing cfgFull = some p2 :=
  ⟨rfl, fill_missing_safe_after_validation cfgFull [] rfl⟩

/-- C10: frame property of load -- when load returns, the result is the
parsed input with only optional keys added to file entries: the top-level
keys and their order are unchanged, every top-level key other than file
maps to its original value (so plot and any other section are untouched),
the number and order of file entries is unchanged, and each returned file
entry is the original entry with only pairs named label, color, fill or
scale appended, every key already present (name and tree included) keeping
its original value. -/
theorem load_ok_frame
    (params params2 : Table) (diags : List Diag)
    (hload : load params = LoadOutcome.ok params2 diags) :
    params2.map Prod.fst = params.map Prod.fst ∧
    (∀ k, k ≠ "file" → getKey params2 k = getKey params k) ∧
    ∃ fs fs2 : List Value,
      getKey params "file" = some (Value.arr fs) ∧
      getKey params2 "file" = some (Value.arr fs2) ∧
      fs2.length = fs.length ∧
      ∀ i (hi : i < fs.length) (hi2 : i < fs2.length), ∃ t e2 : Table,
        fs.get ⟨i, hi⟩ = Value.table t ∧
        fs2.get ⟨i, hi2⟩ = Value.table (t ++ e2) ∧
        (∀ p ∈ e2, p.1 = "label" ∨ p.1 = "color" ∨ p.1 = "fill" ∨ p.1 = "scale") ∧
        ∀ k, hasKey t k = true → getKey (t ++ e2) k = getKey t k := by
  obtain ⟨ts, gs, hv, hp2, hlen, hpt, hgood⟩ := load_ok_shape params params2 diags hload
  have hhk : hasKey params "file" = true := by
    rw [hasKey_eq_isSome, hv]
    rfl
  refine ⟨by rw [hp2]; exact keys_setKey params "file" _ hhk,
          fun k hk => by rw [hp2, getKey_setKey_other params "file" k _ hk],
          ts.map Value.table, gs.map Value.table, hv,
          by rw [hp2, getKey_setKey_self], by simp [hlen], ?_⟩
  intro i hi hi2
  have hi' : i < ts.length := by simpa using hi
  have hi2' : i < gs.length := by simpa using hi2
  obtain ⟨⟨e2, he2, hke2⟩, -, -, -, -, -, -, -, -⟩ := fillEntry_spec _ _ (hpt i hi' hi2')
  refine ⟨ts.get ⟨i, hi'⟩, e2, by simp, ?_, hke2, ?_⟩
  · have hmap : (gs.map Value.table).get ⟨i, hi2⟩ = Value.table (gs.get ⟨i, hi2'⟩) := by simp
    rw [hmap, he2]
  · intro k hk
    rw [getKey_append, hk]
    simp

theorem load_ok_frame_witness :
    load cfgFull = LoadOutcome.ok cfgFullLoaded [] ∧
    (cfgFullLoaded.map Prod.fst = cfgFull.map Prod.fst ∧
     (∀ k, k ≠ "file" → getKey cfgFullLoaded k = getKey cfgFull k) ∧
     ∃ fs fs2 : List Value,
       getKey cfgFull "file" = some (Value.arr fs) ∧
       getKey cfgFullLoaded "file" = some (Value.arr fs2) ∧
       fs2.length = fs.length ∧
       ∀ i (hi : i < fs.length) (hi2 : i < fs2.length), ∃ t e2 : Table,
         fs.get ⟨i, hi⟩ = Value.table t ∧
         fs2.get ⟨i, hi2⟩ = Value.table (t ++ e2) ∧
         (∀ p ∈ e2, p.1 = "label" ∨ p.1 = "color" ∨ p.1 = "fill" ∨ p.1 = "scale") ∧
         ∀ k, hasKey t k = true → getKey (t ++ e2) k = getKey t k) :=
  ⟨rfl, load_ok_frame cfgFull cfgFullLoaded [] rfl⟩

end AtlasPlots
